import Mathlib

/-!
Verification development for the context-acquisition pipeline of a
pull-request review action: the unified-diff position mapper, the source
scanner (declarations and imports), the codebase indexer's file selection
and index construction, and the retrying remote fetcher.

The TypeScript sources are shallowly embedded: strings are handled as
`List Char`, JavaScript `Record` objects as association lists, and the
regular expressions of the scanner as explicit matchers with the same
leftmost-match, ordered-alternation, greedy-run semantics (for these
particular patterns maximal munch is exact, since every quantified class
is disjoint from the character that must follow it).
-/

namespace Flash

/-- The JavaScript whitespace class as used by `trim` and the regex class
for the separators that occur in this code base (ASCII whitespace). -/
def isSpaceJS (c : Char) : Bool :=
  c = ' ' ∨ c = '\t' ∨ c = '\n' ∨ c = '\r' ∨ c = '\x0b' ∨ c = '\x0c'

/-- The regex word class: letters, digits and underscore. -/
def isWordChar (c : Char) : Bool :=
  ('a' ≤ c ∧ c ≤ 'z') ∨ ('A' ≤ c ∧ c ≤ 'Z') ∨ ('0' ≤ c ∧ c ≤ '9') ∨ c = '_'

/-- JavaScript `a.includes(b)` on strings viewed as character lists. -/
def containsSub (cs sub : List Char) : Bool :=
  match cs with
  | [] => List.isPrefixOf sub []
  | _ :: t => List.isPrefixOf sub cs || containsSub t sub

/-- First index at which `sub` occurs in `cs`, if any. -/
def firstIdx (cs sub : List Char) : Option Nat :=
  match cs with
  | [] => if List.isPrefixOf sub [] then some 0 else none
  | _ :: t =>
    if List.isPrefixOf sub cs then some 0
    else (firstIdx t sub).map (· + 1)

/-- JavaScript `a.indexOf(b)`: first occurrence index, `-1` when absent. -/
def jsIndexOf (cs sub : List Char) : Int :=
  match firstIdx cs sub with
  | some k => (k : Int)
  | none => -1

/-- JavaScript `s.split(sep)` for a one-character separator: always at
least one (possibly empty) field. -/
def splitOnChar (sep : Char) : List Char → List (List Char)
  | [] => [[]]
  | c :: rest =>
    match splitOnChar sep rest with
    | [] => [[c]]
    | g :: gs => if c = sep then [] :: g :: gs else (c :: g) :: gs

/-- JavaScript `s.trim()` on a character list. -/
def trimJS (cs : List Char) : List Char :=
  ((cs.dropWhile isSpaceJS).reverse.dropWhile isSpaceJS).reverse

/-- Strip a literal from the front, returning the remainder on success. -/
def stripLit (lit cs : List Char) : Option (List Char) :=
  if List.isPrefixOf lit cs then some (cs.drop lit.length) else none

/-- Split off the maximal leading run of decimal digits. -/
def spanDigits (cs : List Char) : List Char × List Char :=
  (cs.takeWhile Char.isDigit, cs.dropWhile Char.isDigit)

/-- `parseInt(_, 10)` on a nonempty digit run. -/
def parseDigits (ds : List Char) : Nat :=
  ds.foldl (fun a c => a * 10 + (c.toNat - 48)) 0

/-! ## Diff Position Mapper

Embedding of `GitHubService.calculateDiffPosition`
(src/github/github-service.ts, lines 174-205).
-/

/-- The optional `,<len>` part of a hunk header: consumed only when a comma
with at least one digit follows, otherwise left in place (the greedy
optional group falls back to matching nothing). -/
def optCommaDigits (cs : List Char) : List Char :=
  match cs with
  | ',' :: t =>
    let p := spanDigits t
    if p.1.isEmpty then cs else p.2
  | _ => cs

/-- Attempt the hunk-header pattern at the start of `cs`; on success
return the captured new-start number. This is the anchored form of the
regex used on at-at lines by the mapper. -/
def tryHunkAt (cs : List Char) : Option Nat := do
  let cs ← stripLit ("@@ -".data) cs
  let d1 := spanDigits cs
  if d1.1.isEmpty then none else
  let cs := optCommaDigits d1.2
  let cs ← stripLit (" +".data) cs
  let d2 := spanDigits cs
  if d2.1.isEmpty then none else
  let cs := optCommaDigits d2.2
  let _ ← stripLit (" @@".data) cs
  pure (parseDigits d2.1)

/-- Leftmost application of an anchored matcher, mirroring an unanchored
regex search over a line. -/
def scanFirst (f : List Char → Option α) : List Char → Option α
  | [] => f []
  | c :: rest =>
    match f (c :: rest) with
    | some v => some v
    | none => scanFirst f rest

/-- `line.match` against the hunk-header regex, returning the captured
`newStart` when the line contains a hunk header. -/
def hunkNewStart (line : List Char) : Option Nat :=
  scanFirst tryHunkAt line

/-- The loop body of `calculateDiffPosition`: iterate over the patch lines
carrying the new-file line counter and the running diff position. -/
def goDiff (targetLine : Int) : List (List Char) → Int → Nat → Option Nat
  | [], _, _ => none
  | line :: rest, currentLine, diffPosition =>
    if List.isPrefixOf ("@@".data) line then
      match hunkNewStart line with
      | some ns => goDiff targetLine rest ((ns : Int) - 1) (diffPosition + 1)
      | none => goDiff targetLine rest currentLine (diffPosition + 1)
    else
      let cur := if List.isPrefixOf ("-".data) line then currentLine else currentLine + 1
      if cur = targetLine then some (diffPosition + 1)
      else goDiff targetLine rest cur (diffPosition + 1)

/-- `calculateDiffPosition(patch, targetLine)`. A missing (`undefined`) or
empty patch short-circuits to `null` via the falsiness guard; the fallible
result is an `Option`, never an exception. -/
def calculateDiffPosition (patch : String) (targetLine : Int) : Option Nat :=
  if patch = "" then none
  else goDiff targetLine (splitOnChar '\n' patch.data) 0 0

/-- The sequence of values the new-file line counter takes at the match
test of each non-header patch line (headers perform no test). -/
def checkedTrace : List (List Char) → Int → List Int
  | [], _ => []
  | line :: rest, currentLine =>
    if List.isPrefixOf ("@@".data) line then
      match hunkNewStart line with
      | some ns => checkedTrace rest ((ns : Int) - 1)
      | none => checkedTrace rest currentLine
    else
      let cur := if List.isPrefixOf ("-".data) line then currentLine else currentLine + 1
      cur :: checkedTrace rest cur

/-! ## Source Scanner

Embedding of `CodeIndexer.extractDeclarations`, `extractImports`,
`resolveImportPath`, `findDeclarationLocation` and `findDependencies`
(src/indexing/indexer.ts, lines 160-290).
-/

/-- 1-indexed inclusive line span of a declaration. -/
structure DeclLocation where
  startLine : Nat
  endLine : Nat
deriving Repr, DecidableEq

/-- The `Declaration` record of types/index.ts restricted to the fields
the scanner populates. -/
structure Declaration where
  type : String
  name : String
  location : DeclLocation
  exported : Bool
  dependencies : List String
deriving Repr, DecidableEq

/-- The declaration keywords, in the order of the regex alternation. No
keyword is a prefix of another, so at most one can match at a position
and the ordered alternation reduces to the first structural match. -/
def declKeywords : List (List Char) :=
  [("class").data, ("interface").data, ("type").data, ("enum").data,
   ("function").data, ("const").data, ("var").data, ("namespace").data]

/-- The keyword alternation, anchored at the start of `cs`. -/
def matchKwAt (cs : List Char) : Option (List Char) :=
  declKeywords.find? (fun k => List.isPrefixOf k cs)

/-- Length of the maximal leading whitespace run. -/
def wsRun (cs : List Char) : Nat := (cs.takeWhile isSpaceJS).length

/-- Keyword, mandatory whitespace, captured word: the part of the
declaration regex after the optional export marker, anchored at `cs`.
Returns consumed length and the captured name. -/
def matchCore (cs : List Char) : Option (Nat × String) := do
  let kw ← matchKwAt cs
  let r1 := cs.drop kw.length
  let w := wsRun r1
  if w = 0 then none else
  let v := (r1.drop w).takeWhile isWordChar
  if v.isEmpty then none else
  pure (kw.length + w + v.length, String.mk v)

/-- The full declaration regex anchored at `cs`: greedy optional export
marker plus whitespace, falling back to the bare keyword form. -/
def declMatchAt (cs : List Char) : Option (Nat × String) :=
  if List.isPrefixOf ("export".data) cs then
    let r1 := cs.drop 6
    let w := wsRun r1
    if w = 0 then matchCore cs
    else
      match matchCore (r1.drop w) with
      | some p => some (6 + w + p.1, p.2)
      | none => matchCore cs
  else matchCore cs

/-- The global-flag exec loop with an explicit iteration bound: find the
leftmost match at or after the current position, record it, resume after
its end. Every match of the matchers used here consumes at least one
character (each begins with a keyword), so dropping `len - 1` from the
tail equals dropping `len` from the whole list and every iteration
shortens the text; a fuel equal to the text length therefore never runs
out before the text does, exactly the bound of the JavaScript loop. -/
def scanGF (m : List Char → Option (Nat × String)) :
    Nat → List Char → Nat → List (Nat × Nat × String)
  | 0, _, _ => []
  | _ + 1, [], _ => []
  | fuel + 1, c :: rest, pos =>
    match m (c :: rest) with
    | some (len, s) => (pos, len, s) :: scanGF m fuel (rest.drop (len - 1)) (pos + len)
    | none => scanGF m fuel rest (pos + 1)

/-- The exec loop over a whole text. -/
def scanG (m : List Char → Option (Nat × String)) (cs : List Char) (pos : Nat) :
    List (Nat × Nat × String) :=
  scanGF m cs.length cs pos

/-- `getDeclarationType`: classify by substring containment on the whole
matched text, in the source's order of checks. -/
def getDeclarationType (declaration : List Char) : String :=
  if containsSub declaration (("class").data) then "class"
  else if containsSub declaration (("interface").data) then "interface"
  else if containsSub declaration (("type").data) then "type"
  else if containsSub declaration (("enum").data) then "enum"
  else if containsSub declaration (("function").data) then "function"
  else if containsSub declaration (("const").data) then "const"
  else if containsSub declaration (("var").data) then "var"
  else if containsSub declaration (("namespace").data) then "namespace"
  else "type"

/-- The first pass of `findDeclarationLocation`: the last 1-based line
index whose first-occurrence offset in the content is at most the match
index, starting from the accumulator 1. -/
def goStart (content : List Char) (startIndex : Nat) : List (List Char) → Nat → Nat → Nat
  | [], _, acc => acc
  | l :: ls, i, acc =>
    goStart content startIndex ls (i + 1)
      (if jsIndexOf content l ≤ (startIndex : Int) then i + 1 else acc)

/-- Net brace contribution of a line: opening braces count plus one,
closing braces minus one. -/
def braceDelta (l : List Char) : Int :=
  l.foldl (fun a c => if c = '{' then a + 1 else if c = '}' then a - 1 else a) 0

/-- State of the brace-depth walk. -/
structure WalkState where
  braceCount : Int
  inComment : Bool
deriving Repr, DecidableEq

/-- Outcome of one iteration of the walk: stop at this line or continue
with an updated state. -/
inductive StepOut where
  | stop : StepOut
  | cont : WalkState → StepOut
deriving Repr, DecidableEq

/-- One iteration of the end-line walk over a raw line, mirroring the
loop body: trim; skip single-line comments; update the block-comment flag
from the opening and closing markers; skip while inside a comment;
otherwise add the brace delta and stop when the depth is zero and the
line has no opening brace. -/
def walkStep (s : WalkState) (rawLine : List Char) : StepOut :=
  let line := trimJS rawLine
  if List.isPrefixOf ("//".data) line then StepOut.cont s
  else
    let inC1 := if containsSub line ("/*".data) then true else s.inComment
    let inC2 := if containsSub line ("*/".data) then false else inC1
    if inC2 then StepOut.cont { braceCount := s.braceCount, inComment := inC2 }
    else
      let bc := s.braceCount + braceDelta line
      if bc = 0 ∧ ¬ containsSub line [ '{' ] then StepOut.stop
      else StepOut.cont { braceCount := bc, inComment := inC2 }

/-- The end-line walk from 1-based line index `i`: the loop of
`findDeclarationLocation`, bounded by the remaining line list. -/
def walkLines : List (List Char) → Nat → WalkState → Option Nat
  | [], _, _ => none
  | l :: ls, i, s =>
    match walkStep s l with
    | StepOut.stop => some i
    | StepOut.cont s2 => walkLines ls (i + 1) s2

/-- `findDeclarationLocation(content, startIndex)`: start line by the
first-occurrence scan, end line by the brace-depth walk with the line
count as default when the walk never stops. -/
def findDeclarationLocation (content : List Char) (startIndex : Nat) : DeclLocation :=
  let lines := splitOnChar '\n' content
  let startLine := goStart content startIndex lines 0 1
  let endLine :=
    (walkLines (lines.drop (startLine - 1)) startLine
        { braceCount := 0, inComment := false }).getD lines.length
  { startLine := startLine, endLine := endLine }

/-- JS quote class of the import regex: a single or double quote. -/
def isQuoteJS (c : Char) : Bool := c = '"' ∨ c.toNat = 39

/-- The import-clause alternation (braced named imports, starred
namespace import, or a bare default name), anchored at `cs`; returns the
consumed length. The three alternatives begin with distinct disjoint
characters, so ordered alternation is a first-character dispatch. -/
def importClauseAt (cs : List Char) : Option Nat :=
  match cs with
  | [] => none
  | c :: t =>
    if c = '{' then
      let body := t.takeWhile (fun d => ¬ d = '}')
      match t.drop body.length with
      | '}' :: _ => some (1 + body.length + 1)
      | _ => none
    else if c = '*' then
      let w := wsRun t
      if w = 0 then none else
      match stripLit ("as".data) (t.drop w) with
      | some r2 =>
        let w2 := wsRun r2
        if w2 = 0 then none else
        let v := (r2.drop w2).takeWhile isWordChar
        if v.isEmpty then none else some (1 + w + 2 + w2 + v.length)
      | none => none
    else
      let v := cs.takeWhile isWordChar
      if v.isEmpty then none else some v.length

/-- The import regex anchored at `cs`: the literal import keyword,
whitespace, a clause, whitespace, the literal from, whitespace, a quote,
a nonempty run free of quotes (captured), a closing quote (either kind).
Returns consumed length and the captured raw path. -/
def importMatchAt (cs : List Char) : Option (Nat × String) := do
  let r0 ← stripLit ("import".data) cs
  let w1 := wsRun r0
  if w1 = 0 then none else
  let cl ← importClauseAt (r0.drop w1)
  let r2 := (r0.drop w1).drop cl
  let w2 := wsRun r2
  if w2 = 0 then none else
  let r3 ← stripLit ("from".data) (r2.drop w2)
  let w3 := wsRun r3
  if w3 = 0 then none else
  match r3.drop w3 with
  | [] => none
  | q :: t =>
    if isQuoteJS q then
      let body := t.takeWhile (fun d => ¬ isQuoteJS d)
      if body.isEmpty then none else
      match t.drop body.length with
      | q2 :: _ =>
        if isQuoteJS q2 then
          some (6 + w1 + cl + w2 + 4 + w3 + 1 + body.length + 1, String.mk body)
        else none
      | [] => none
    else none

/-- `resolveImportPath`: relative paths unchanged, scoped packages cut to
their first two slash segments, plain packages to their first segment
(the slash-split parts list of the source is inlined at its use sites). -/
def resolveImportPath (importPath : String) : String :=
  if List.isPrefixOf (".".data) importPath.data then importPath
  else if List.isPrefixOf ("@".data) ((splitOnChar '/' importPath.data).headD []) then
    String.mk (List.intercalate ("/".data) ((splitOnChar '/' importPath.data).take 2))
  else
    String.mk ((splitOnChar '/' importPath.data).headD [])

/-- `extractImports`: every match of the import regex over the content,
in order, dropping raw paths that begin with the vendored marker, each
resolved; no deduplication is applied here. -/
def extractImports (content : String) : List String :=
  (scanG importMatchAt content.data 0).filterMap (fun m =>
    if List.isPrefixOf ("node_modules".data) m.2.2.data then none
    else some (resolveImportPath m.2.2))

/-- Insertion into a JavaScript `Set` viewed as its insertion-order
element list. -/
def setAdd (l : List String) (x : String) : List String :=
  if x ∈ l then l else l ++ [x]

/-- The leftmost capture of the import regex in a single line, if any. -/
def firstImportCapture (line : List Char) : Option String :=
  (scanFirst importMatchAt line).map (fun p => p.2)

/-- `findDependencies(content, location)`: resolved paths of the first
matched import of each line in the span, collected through a `Set`. -/
def findDependencies (content : List Char) (loc : DeclLocation) : List String :=
  let lines :=
    ((splitOnChar '\n' content).drop (loc.startLine - 1)).take
      (loc.endLine - (loc.startLine - 1))
  lines.foldl (fun acc line =>
    match firstImportCapture line with
    | some p => setAdd acc (resolveImportPath p)
    | none => acc) []

/-- `extractDeclarations`: every match of the declaration regex, with its
classified kind, captured name, line span, export flag and span-local
dependencies. -/
def extractDeclarations (content : String) : List Declaration :=
  (scanG declMatchAt content.data 0).map (fun m =>
    let matched := (content.data.drop m.1).take m.2.1
    let location := findDeclarationLocation content.data m.1
    { type := getDeclarationType matched,
      name := m.2.2,
      location := location,
      exported := containsSub matched ("export".data),
      dependencies := findDependencies content.data location })

/-! ## Codebase Indexer

Embedding of `CodeIndexer.indexCodebase`, `getTypeScriptFiles`,
`filterTypeScriptFiles` and `findRelatedFiles`
(src/indexing/indexer.ts, lines 12-158). The remote directory traversal
and the content fetches are external collaborators: the traversal's
collected candidate paths and the content oracle are parameters. Batched
fetching (windows of 10) only affects scheduling; results are matched
back to files by input position and all index writes happen after a
batch settles, so the sequential fold below is its denotation.
-/

/-- A file of the built index. -/
structure IndexedFile where
  path : String
  content : String
  declarations : List Declaration
deriving Repr, DecidableEq

/-- The aggregate index; the two `Record` objects are association lists
in key-insertion order. -/
structure IndexedCodebase where
  files : List IndexedFile
  dependencies : List (String × List String)
  imports : List (String × List String)
deriving Repr, DecidableEq

/-- `record[k]` on an association list. -/
def recLookup {α : Type} : List (String × α) → String → Option α
  | [], _ => none
  | (k2, v) :: rest, k => if k2 = k then some v else recLookup rest k

/-- `record[k] = v`: overwrite in place, or append a new key. -/
def recSet {α : Type} : List (String × α) → String → α → List (String × α)
  | [], k, v => [(k, v)]
  | (k2, v2) :: rest, k, v =>
    if k2 = k then (k2, v) :: rest else (k2, v2) :: recSet rest k v

/-- `if (!record[k]) record[k] = []; record[k].push(v)`. -/
def recPush : List (String × List String) → String → String → List (String × List String)
  | [], k, v => [(k, [v])]
  | (k2, vs) :: rest, k, v =>
    if k2 = k then (k2, vs ++ [v]) :: rest else (k2, vs) :: recPush rest k v

/-- `filterTypeScriptFiles`: keep dot-ts paths that are not declaration
files and mention neither the vendored directory nor the build directory. -/
def filterTypeScriptFiles (files : List String) : List String :=
  files.filter (fun file =>
    List.isSuffixOf (".ts".data) file.data &&
    !(List.isSuffixOf (".d.ts".data) file.data) &&
    !(containsSub file.data ("node_modules".data)) &&
    !(containsSub file.data ("dist".data)))

/-- Add every element of `xs` to the insertion-ordered set `r`. -/
def addAllNew (r : List String) (xs : List String) : List String :=
  xs.foldl setAdd r

/-- `findRelatedFiles`: the set of import targets of the given files as
recorded in the imports map, in insertion order. -/
def findRelatedFiles (files : List String) (imports : List (String × List String)) : List String :=
  files.foldl (fun related file => addAllNew related ((recLookup imports file).getD [])) []

/-- `[...new Set(l)]`: de-duplication by first occurrence, stable order. -/
def dedupFirst (l : List String) : List String := l.foldl setAdd []

/-- `getTypeScriptFiles` after the remote traversal: filter the traversed
candidates, partition into prioritized (paths containing a changed-file
path), related (via `findRelatedFiles` on the imports map as passed in),
and remaining capped at 100, and de-duplicate the concatenation. An
exhausted candidate list short-circuits to the empty fetch list; an empty
result after processing raises. -/
def getTypeScriptFiles (traversed : List String) (prioritizedFiles : List String)
    (imports : List (String × List String)) : Except String (List String) :=
  let files := filterTypeScriptFiles traversed
  if files.isEmpty then Except.ok []
  else
    let prioritized := files.filter (fun file =>
      prioritizedFiles.any (fun p => containsSub file.data p.data))
    let relatedFiles := findRelatedFiles prioritized imports
    let remaining := (files.filter (fun file =>
      !(prioritized.contains file) && !(relatedFiles.contains file))).take 100
    let allFiles := dedupFirst (prioritized ++ relatedFiles ++ remaining)
    if allFiles.isEmpty then Except.error "No valid TypeScript files found after processing"
    else Except.ok allFiles

/-- Processing of one fetched file inside the batch loop of
`indexCodebase`: a missing content drops the file; otherwise the file is
scanned and appended, its imports recorded, and each import target's
referencing-file list extended. -/
def indexStep (getContent : String → Option String) (st : IndexedCodebase)
    (file : String) : IndexedCodebase :=
  match getContent file with
  | none => st
  | some content =>
    let fileImports := extractImports content
    let nf : IndexedFile :=
      { path := file, content := content, declarations := extractDeclarations content }
    { files := st.files ++ [nf],
      imports := recSet st.imports file fileImports,
      dependencies := fileImports.foldl (fun d imp => recPush d imp file) st.dependencies }

/-- The fetch-and-scan loop of `indexCodebase` over the ordered file
list, starting from the empty index. -/
def buildIndex (tsFiles : List String) (getContent : String → Option String) : IndexedCodebase :=
  tsFiles.foldl (indexStep getContent) { files := [], dependencies := [], imports := [] }

/-- `indexCodebase(owner, repo, branch, prioritizedFiles)`. The `imports`
record is created empty and handed to `getTypeScriptFiles`, whose
`findRelatedFiles` call reads it before the fetch loop performs any
write; the selection stage therefore observes the empty map. -/
def indexCodebase (traversed : List String) (prioritizedFiles : List String)
    (getContent : String → Option String) : Except String IndexedCodebase :=
  match getTypeScriptFiles traversed prioritizedFiles [] with
  | Except.error e => Except.error e
  | Except.ok tsFiles => Except.ok (buildIndex tsFiles getContent)

/-- The consistency property of C10 between the three components of an
index. -/
def indexConsistent (idx : IndexedCodebase) : Prop :=
  (∀ f ∈ idx.files, ∀ ts, recLookup idx.imports f.path = some ts →
      ∀ t ∈ ts, ∃ ds, recLookup idx.dependencies t = some ds ∧ f.path ∈ ds) ∧
  (∀ t ds, recLookup idx.dependencies t = some ds →
      ∀ p ∈ ds, p ∈ idx.files.map IndexedFile.path)

/-- Invariant carried through the fetch-and-scan loop: every indexed
file's content is the oracle's answer for its path, its imports-map entry
is the scan of that content, each of its import targets lists the file
among its referencing files, and every referencing file recorded anywhere
is an indexed file. -/
def indexInv (getContent : String → Option String) (st : IndexedCodebase) : Prop :=
  (∀ f ∈ st.files, getContent f.path = some f.content) ∧
  (∀ f ∈ st.files, recLookup st.imports f.path = some (extractImports f.content)) ∧
  (∀ f ∈ st.files, ∀ t ∈ extractImports f.content,
      ∃ ds, recLookup st.dependencies t = some ds ∧ f.path ∈ ds) ∧
  (∀ t ds, recLookup st.dependencies t = some ds → ∀ p ∈ ds, p ∈ st.files.map IndexedFile.path)

/-- Concrete content oracle used by witnesses: one file importing a
sibling, everything else a bare constant. -/
def exGetContent : String → Option String :=
  fun p => if p = "src/a.ts" then some "import x from \"./b.js\";" else some "const b = 1;"

/-! ## Retrying Remote Fetcher

The retry constants are in the source (`MAX_RETRIES`,
`INITIAL_RETRY_DELAY`, `MAX_RETRY_DELAY`); the `withRetry` wrapper that
consumes them is not among the provided sources, so its loop is modelled
from the specification and the produced backoff waits are returned as an
observable trace.
-/

def MAX_RETRIES : Nat := 3

def INITIAL_RETRY_DELAY : Nat := 1000

def MAX_RETRY_DELAY : Nat := 10000

/-- Modelled from the spec: the retry loop of `withRetry`, absent from
the provided sources. The operation is a function from the attempt index
to its outcome; on failure before the last attempt the current delay is
recorded as a wait, then doubled and capped; after the final failed
attempt the last error is re-raised. Returns the outcome and the list of
backoff waits performed. -/
def withRetryGo {E A : Type} (maxDelay : Nat) (op : Nat → Except E A) :
    Nat → Nat → Nat → List Nat → Except E A × List Nat
  | retriesLeft, attempt, delay, waits =>
    match op attempt with
    | Except.ok v => (Except.ok v, waits)
    | Except.error e =>
      match retriesLeft with
      | 0 => (Except.error e, waits)
      | r + 1 =>
        withRetryGo maxDelay op r (attempt + 1) (min (delay * 2) maxDelay) (waits ++ [delay])

/-- Modelled from the spec: `withRetry(operation)` with the process-wide
retry constants; the attempts remaining after the current one start at
the maximal attempt count less one. -/
def withRetry {E A : Type} (op : Nat → Except E A) : Except E A × List Nat :=
  withRetryGo MAX_RETRY_DELAY op (MAX_RETRIES - 1) 0 INITIAL_RETRY_DELAY []

/-! ### Lemmas about the mapper loop -/

/-- A successful result of the loop lies strictly above the entry diff
position and within the entry position plus the number of lines left. -/
theorem goDiff_some_bounds (t : Int) :
    ∀ (ls : List (List Char)) (cur : Int) (dp p : Nat),
      goDiff t ls cur dp = some p → dp < p ∧ p ≤ dp + ls.length := by
  intro ls
  induction ls with
  | nil => intro cur dp p h; simp [goDiff] at h
  | cons line rest ih =>
    intro cur dp p h
    rw [goDiff] at h
    by_cases hp : List.isPrefixOf ("@@".data) line
    · simp only [hp, if_true] at h
      cases hns : hunkNewStart line with
      | some ns =>
        rw [hns] at h
        have hb := ih _ _ _ h
        simp only [List.length_cons]
        omega
      | none =>
        rw [hns] at h
        have hb := ih _ _ _ h
        simp only [List.length_cons]
        omega
    · simp only [hp, if_false] at h
      by_cases hc : (if List.isPrefixOf ("-".data) line then cur else cur + 1) = t
      · rw [if_pos hc] at h
        have : dp + 1 = p := by exact Option.some.inj h
        simp only [List.length_cons]
        omega
      · rw [if_neg hc] at h
        have hb := ih _ _ _ h
        simp only [List.length_cons]
        omega

/-- If the target never equals the counter at any tested line, the loop
falls through to the end and yields no position. -/
theorem goDiff_none_of_not_checked (t : Int) :
    ∀ (ls : List (List Char)) (cur : Int) (dp : Nat),
      t ∉ checkedTrace ls cur → goDiff t ls cur dp = none := by
  intro ls
  induction ls with
  | nil => intro cur dp _; rfl
  | cons line rest ih =>
    intro cur dp h
    rw [goDiff]
    rw [checkedTrace] at h
    by_cases hp : List.isPrefixOf ("@@".data) line
    · simp only [hp, if_true] at h ⊢
      cases hns : hunkNewStart line with
      | some ns => rw [hns] at h; exact ih _ _ h
      | none => rw [hns] at h; exact ih _ _ h
    · simp only [hp, if_false] at h ⊢
      have hne : ¬((if List.isPrefixOf ("-".data) line then cur else cur + 1) = t) := by
        intro he
        exact h (by rw [← he]; exact List.mem_cons_self _ _)
      rw [if_neg hne]
      exact ih _ _ (fun hm => h (List.mem_cons_of_mem _ hm))

/-! ### Claim theorems for the mapper -/

/-- C1: on a patch line that starts with the at-at marker and contains a
hunk header with new-start `ns`, the mapper sets the new-file counter to
`ns - 1`, increments the diff position, and continues with the remaining
lines without performing the target test on the header itself (the step
is exactly the recursive call, never an early return); and on the patch
whose first hunk header is at-at -10,5 +20,5 at-at followed by a context
line, `calculateDiffPosition(patch, 20)` returns 2. -/
theorem c1_hunk_header_step :
    (∀ (line : List Char) (rest : List (List Char)) (t cur : Int) (dp ns : Nat),
        List.isPrefixOf ("@@".data) line = true →
        hunkNewStart line = some ns →
        goDiff t (line :: rest) cur dp = goDiff t rest ((ns : Int) - 1) (dp + 1)) ∧
      calculateDiffPosition "@@ -10,5 +20,5 @@\n x" 20 = some 2 := by
  constructor
  · intro line rest t cur dp ns h1 h2
    rw [goDiff]
    simp only [h1, if_true, h2]
  · decide

/-- Witness for C1 at the concrete header of the claim. -/
theorem c1_hunk_header_step_witness :
    goDiff 20 [("@@ -10,5 +20,5 @@".data), (" x".data)] 0 0 =
      goDiff 20 [(" x".data)] (((20 : Nat) : Int) - 1) (0 + 1) :=
  c1_hunk_header_step.1 _ _ _ _ _ _ (by decide) (by decide)

/-- C2: when no line of the patch makes the new-file line counter equal
the target line at its test, `calculateDiffPosition` returns the typed
no-mapping result `none`; the embedding is a total function, so no error
is ever raised. -/
theorem c2_unmatched_returns_none (patch : String) (targetLine : Int)
    (h : targetLine ∉ checkedTrace (splitOnChar '\n' patch.data) 0) :
    calculateDiffPosition patch targetLine = none := by
  unfold calculateDiffPosition
  split
  · rfl
  · exact goDiff_none_of_not_checked _ _ _ _ h

/-- Witness for C2: line 5 of the new file is outside the single hunk of
this patch, so the mapper yields no anchor. -/
theorem c2_unmatched_returns_none_witness :
    calculateDiffPosition "@@ -1,2 +1,2 @@\n a\n-b\n+c" 5 = none :=
  c2_unmatched_returns_none _ _ (by decide)

/-- C3: a non-null mapper result is at least 1 and at most the number of
lines of the patch. -/
theorem c3_position_in_range (patch : String) (targetLine : Int) (p : Nat)
    (h : calculateDiffPosition patch targetLine = some p) :
    1 ≤ p ∧ p ≤ (splitOnChar '\n' patch.data).length := by
  unfold calculateDiffPosition at h
  split at h
  · exact absurd h (by simp)
  · have hb := goDiff_some_bounds targetLine _ _ _ _ h
    omega

/-- Witness for C3 on the two-line patch of C1's example. -/
theorem c3_position_in_range_witness :
    1 ≤ 2 ∧ 2 ≤ (splitOnChar '\n' (("@@ -10,5 +20,5 @@\n x").data)).length :=
  c3_position_in_range "@@ -10,5 +20,5 @@\n x" 20 2 (by decide)

/-! ### Lemmas about the scanner -/

/-- Adding to an insertion-ordered set preserves the no-duplicates
property. -/
theorem setAdd_nodup (l : List String) (x : String) (h : l.Nodup) : (setAdd l x).Nodup := by
  unfold setAdd
  split
  · exact h
  · rename_i hx
    rw [List.nodup_append]
    exact ⟨h, List.nodup_singleton x, by
      intro a ha hb
      rw [List.mem_singleton] at hb
      subst hb
      exact hx ha⟩

/-- The dependency-collection fold keeps its accumulator duplicate-free. -/
theorem findDependencies_foldl_nodup :
    ∀ (ls : List (List Char)) (acc : List String), acc.Nodup →
      (ls.foldl (fun acc line =>
        match firstImportCapture line with
        | some p => setAdd acc (resolveImportPath p)
        | none => acc) acc).Nodup := by
  intro ls
  induction ls with
  | nil => intro acc h; exact h
  | cons l ls ih =>
    intro acc h
    simp only [List.foldl_cons]
    cases hc : firstImportCapture l with
    | some p => simp only [hc]; exact ih _ (setAdd_nodup _ _ h)
    | none => simp only [hc]; exact ih _ h

/-- The set-extension fold keeps its accumulator duplicate-free. -/
theorem addAllNew_nodup : ∀ (xs r : List String), r.Nodup → (addAllNew r xs).Nodup := by
  intro xs
  induction xs with
  | nil => intro r h; exact h
  | cons x xs ih =>
    intro r h
    exact ih _ (setAdd_nodup _ _ h)

/-! ### Claim theorems for the scanner -/

/-- C6 counterexample: a file importing the same module twice produces
the resolved target twice, so the output of `extractImports` is not
duplicate-free. -/
theorem c6_counterexample :
    extractImports "import a from \"./u\";\nimport b from \"./u\";" = ["./u", "./u"] ∧
      ¬ (extractImports "import a from \"./u\";\nimport b from \"./u\";").Nodup := by
  constructor
  · decide
  · decide

/-- C6 amended: `extractImports` keeps one entry per matched import
statement and may contain duplicates; de-duplication happens at the
set-based collection sites: a declaration's dependency list produced by
`findDependencies` and the related set produced by `findRelatedFiles`
never contain duplicates. -/
theorem c6_no_duplicate_dependencies :
    (∀ (content : List Char) (loc : DeclLocation), (findDependencies content loc).Nodup) ∧
      (∀ (files : List String) (imports : List (String × List String)),
        (findRelatedFiles files imports).Nodup) := by
  constructor
  · intro content loc
    unfold findDependencies
    exact findDependencies_foldl_nodup _ _ List.nodup_nil
  · intro files imports
    unfold findRelatedFiles
    have h : ∀ (l : List String) (acc : List String), acc.Nodup →
        (l.foldl (fun related file => addAllNew related ((recLookup imports file).getD [])) acc).Nodup := by
      intro l
      induction l with
      | nil => intro acc h; exact h
      | cons x xs ih => intro acc h; exact ih _ (addAllNew_nodup _ _ h)
    exact h files [] List.nodup_nil

/-- C7: `resolveImportPath` keeps dot-relative paths unchanged, cuts
scoped package paths to their first two slash segments, cuts plain
package paths to their first segment; and `extractImports` on a file
that imports dot-slash-utils and at-scope/pkg/sub yields those two
resolved targets. -/
theorem c7_resolveImportPath :
    (∀ p : String, List.isPrefixOf (".".data) p.data = true → resolveImportPath p = p) ∧
      (∀ p : String, List.isPrefixOf (".".data) p.data = false →
        List.isPrefixOf ("@".data) ((splitOnChar '/' p.data).headD []) = true →
        resolveImportPath p =
          String.mk (List.intercalate ("/".data) ((splitOnChar '/' p.data).take 2))) ∧
      (∀ p : String, List.isPrefixOf (".".data) p.data = false →
        List.isPrefixOf ("@".data) ((splitOnChar '/' p.data).headD []) = false →
        resolveImportPath p = String.mk ((splitOnChar '/' p.data).headD [])) ∧
      extractImports "import a from \"./utils\";\nimport b from \"@scope/pkg/sub\";" =
        ["./utils", "@scope/pkg"] := by
  refine ⟨?_, ?_, ?_, by decide⟩
  · intro p h
    unfold resolveImportPath
    rw [h]
    simp
  · intro p h1 h2
    unfold resolveImportPath
    rw [h1, h2]
    simp
  · intro p h1 h2
    unfold resolveImportPath
    rw [h1, h2]
    simp

/-- Witness for C7 at the scoped package path of the claim. -/
theorem c7_resolveImportPath_witness :
    resolveImportPath "@scope/pkg/sub" =
      String.mk (List.intercalate ("/".data) ((splitOnChar '/' ("@scope/pkg/sub" : String).data).take 2)) :=
  c7_resolveImportPath.2.1 "@scope/pkg/sub" (by decide) (by decide)

/-- C9 counterexample: two declarations differing only by one closing
brace placed inside a block comment, on the line that carries the
closing marker, get different end lines (4 without the brace, 3 with
it): a brace inside the comment region changed the depth counter and the
computed end line. -/
theorem c9_counterexample :
    (findDeclarationLocation (("function f() \x7b\n/* x\n*/\n\x7d").data) 0).endLine = 4 ∧
      (findDeclarationLocation (("function f() \x7b\n/* x\n\x7d */\n\x7d").data) 0).endLine = 3 := by
  constructor
  · decide
  · decide

/-- C9 amended: while the walk is inside a block comment, a line whose
trimmed text does not contain the closing marker leaves the walk state —
in particular the brace-depth counter — unchanged; but the line carrying
the closing marker has all its braces counted, including those placed
before the marker inside the comment text: at depth 1 the closing line of
the counterexample brings the depth to 0 and stops the walk there. -/
theorem c9_comment_brace_skip :
    (∀ (s : WalkState) (l : List Char), s.inComment = true →
        containsSub (trimJS l) ("*/".data) = false → walkStep s l = StepOut.cont s) ∧
      walkStep { braceCount := 1, inComment := true } (("\x7d */").data) = StepOut.stop := by
  constructor
  · intro s l hin hnc
    obtain ⟨bc, inC⟩ := s
    simp only [WalkState.inComment] at hin
    subst hin
    simp [walkStep, hnc]
  · decide

/-- Witness for C9: a line with braces strictly inside a comment leaves
the state untouched. -/
theorem c9_comment_brace_skip_witness :
    walkStep { braceCount := 5, inComment := true } ((" \x7b\x7d x ").data) =
      StepOut.cont { braceCount := 5, inComment := true } :=
  c9_comment_brace_skip.1 _ _ (by decide) (by decide)

/-! ### The span invariant of the scanner -/

/-- Splitting always yields at least one field. -/
theorem splitOnChar_length_pos (sep : Char) (cs : List Char) :
    0 < (splitOnChar sep cs).length := by
  cases cs with
  | nil => simp [splitOnChar]
  | cons c rest =>
    rw [splitOnChar]
    cases h : splitOnChar sep rest with
    | nil => simp
    | cons g gs =>
      dsimp only
      split <;> simp

/-- The first pass either keeps its accumulator or answers a 1-based
index of one of the scanned lines. -/
theorem goStart_bounds (content : List Char) (startIndex : Nat) :
    ∀ (ls : List (List Char)) (i acc : Nat),
      goStart content startIndex ls i acc = acc ∨
        (i + 1 ≤ goStart content startIndex ls i acc ∧
          goStart content startIndex ls i acc ≤ i + ls.length) := by
  intro ls
  induction ls with
  | nil => intro i acc; left; rfl
  | cons l ls ih =>
    intro i acc
    rw [goStart]
    by_cases hc : jsIndexOf content l ≤ (startIndex : Int)
    · rw [if_pos hc]
      rcases ih (i + 1) (i + 1) with h | h <;>
        · right
          simp only [List.length_cons]
          omega
    · rw [if_neg hc]
      rcases ih (i + 1) acc with h | h
      · exact Or.inl h
      · right
        simp only [List.length_cons]
        omega

/-- When the walk stops, it stops at the 1-based index of one of the
lines it was given. -/
theorem walkLines_some_bounds :
    ∀ (ls : List (List Char)) (i : Nat) (s : WalkState) (j : Nat),
      walkLines ls i s = some j → i ≤ j ∧ j < i + ls.length := by
  intro ls
  induction ls with
  | nil => intro i s j h; simp [walkLines] at h
  | cons l ls ih =>
    intro i s j h
    rw [walkLines] at h
    cases hs : walkStep s l with
    | stop =>
      rw [hs] at h
      have hj := Option.some.inj h
      simp only [List.length_cons]
      omega
    | cont s2 =>
      rw [hs] at h
      have hb := ih (i + 1) s2 j h
      simp only [List.length_cons]
      omega

/-- The location computed for any match index satisfies the span
invariant: the 1-based start line is positive, at most the end line, and
the end line is at most the number of lines; the walk is a structural
recursion over the remaining lines, so it terminates within the file's
line count regardless of brace balance. -/
theorem findDeclarationLocation_inv (content : List Char) (startIndex : Nat) :
    1 ≤ (findDeclarationLocation content startIndex).startLine ∧
      (findDeclarationLocation content startIndex).startLine ≤
        (findDeclarationLocation content startIndex).endLine ∧
      (findDeclarationLocation content startIndex).endLine ≤
        (splitOnChar '\n' content).length := by
  unfold findDeclarationLocation
  dsimp only
  have hlen := splitOnChar_length_pos '\n' content
  have hs := goStart_bounds content startIndex (splitOnChar '\n' content) 0 1
  have hS : 1 ≤ goStart content startIndex (splitOnChar '\n' content) 0 1 ∧
      goStart content startIndex (splitOnChar '\n' content) 0 1 ≤
        (splitOnChar '\n' content).length := by
    rcases hs with h | h
    · omega
    · omega
  cases hw : walkLines
      ((splitOnChar '\n' content).drop
        (goStart content startIndex (splitOnChar '\n' content) 0 1 - 1))
      (goStart content startIndex (splitOnChar '\n' content) 0 1)
      { braceCount := 0, inComment := false } with
  | none =>
    simp only [Option.getD_none]
    omega
  | some j =>
    simp only [Option.getD_some]
    have hb := walkLines_some_bounds _ _ _ _ hw
    rw [List.length_drop] at hb
    omega

/-- C8: every declaration the scanner extracts, from any content
including content with malformed or unbalanced braces, has a span with
positive 1-based start line, start line at most end line, and end line
at most the file's line count; the end-line scan is bounded by the line
list and always terminates. -/
theorem c8_declaration_span (content : String) :
    ∀ d ∈ extractDeclarations content,
      1 ≤ d.location.startLine ∧ d.location.startLine ≤ d.location.endLine ∧
        d.location.endLine ≤ (splitOnChar '\n' content.data).length := by
  intro d hd
  unfold extractDeclarations at hd
  rcases List.mem_map.mp hd with ⟨m, _, hm⟩
  rw [← hm]
  exact findDeclarationLocation_inv content.data m.1

/-- Witness for C8 on a two-line function declaration. -/
theorem c8_declaration_span_witness :
    ((⟨"function", "f", ⟨1, 2⟩, false, []⟩ : Declaration) ∈
        extractDeclarations "function f() \x7b\n\x7d") ∧
      (1 ≤ (1 : Nat) ∧ (1 : Nat) ≤ 2 ∧ 2 ≤
        (splitOnChar '\n' (("function f() \x7b\n\x7d" : String)).data).length) :=
  ⟨by decide,
    c8_declaration_span "function f() \x7b\n\x7d"
      (⟨"function", "f", ⟨1, 2⟩, false, []⟩ : Declaration) (by decide)⟩

/-! ### Claim theorem for the file-selection order -/

/-- C4 (code bug): the selection stage consults the imports map before
the fetch loop has written anything into it, so the related set is
empty for every prioritized list; on the failing input — a traversal
yielding a.ts, x.ts, b.ts with a.ts prioritized and importing b — the
fetch order keeps b.ts behind the unrelated x.ts instead of promoting it
next to the prioritized files. -/
theorem c4_related_set_unpopulated :
    (∀ prioritized : List String,
        findRelatedFiles prioritized ([] : List (String × List String)) = []) ∧
      extractImports "import a from \"./b.js\";" = ["./b.js"] ∧
      getTypeScriptFiles ["src/a.ts", "src/x.ts", "src/b.ts"] ["src/a.ts"] [] =
        Except.ok ["src/a.ts", "src/x.ts", "src/b.ts"] := by
  refine ⟨?_, by decide, rfl⟩
  intro prioritized
  unfold findRelatedFiles
  have h : ∀ (l : List String) (acc : List String),
      l.foldl (fun related file =>
        addAllNew related ((recLookup ([] : List (String × List String)) file).getD [])) acc =
        acc := by
    intro l
    induction l with
    | nil => intro acc; rfl
    | cons x xs ih => intro acc; exact ih acc
  exact h prioritized []

/-! ### Record-map lemmas for the index invariant -/

/-- Setting a key makes it look up to the new value. -/
theorem recLookup_recSet_self {α : Type} (m : List (String × α)) (k : String) (v : α) :
    recLookup (recSet m k v) k = some v := by
  induction m with
  | nil => simp [recSet, recLookup]
  | cons p rest ih =>
    obtain ⟨k2, v2⟩ := p
    rw [recSet]
    by_cases h : k2 = k
    · rw [if_pos h, recLookup, if_pos h]
    · rw [if_neg h, recLookup, if_neg h]
      exact ih

/-- Setting a key leaves every other key's lookup unchanged. -/
theorem recLookup_recSet_ne {α : Type} (m : List (String × α)) (k t : String) (v : α)
    (h : ¬ k = t) : recLookup (recSet m k v) t = recLookup m t := by
  induction m with
  | nil => simp [recSet, recLookup, h]
  | cons p rest ih =>
    obtain ⟨k2, v2⟩ := p
    rw [recSet]
    by_cases h2 : k2 = k
    · rw [if_pos h2, recLookup, recLookup]
      have h3 : ¬ k2 = t := fun he => h (h2 ▸ he)
      rw [if_neg h3, if_neg h3]
    · rw [if_neg h2, recLookup, recLookup]
      by_cases h3 : k2 = t
      · rw [if_pos h3, if_pos h3]
      · rw [if_neg h3, if_neg h3]
        exact ih

/-- Characterization of a lookup after a push: the pushed key gains the
value at the end of its (possibly fresh) list, other keys are untouched. -/
theorem recLookup_recPush (d : List (String × List String)) (k v t : String) :
    recLookup (recPush d k v) t =
      if k = t then some (((recLookup d k).getD []) ++ [v]) else recLookup d t := by
  induction d with
  | nil =>
    by_cases h : k = t
    · subst h
      simp [recPush, recLookup]
    · simp [recPush, recLookup, h]
  | cons p rest ih =>
    obtain ⟨k2, vs⟩ := p
    by_cases h2 : k2 = k
    · subst h2
      by_cases ht : k2 = t
      · subst ht
        simp [recPush, recLookup]
      · simp [recPush, recLookup, ht]
    · by_cases ht : k2 = t
      · subst ht
        have hk : ¬ k = k2 := fun he => h2 he.symm
        simp [recPush, recLookup, h2, hk]
      · simp [recPush, recLookup, h2, ht, ih]

/-- A push preserves any existing entry up to list extension. -/
theorem recLookup_recPush_preserve (d : List (String × List String)) (k v t : String)
    (ds : List String) (h : recLookup d t = some ds) :
    ∃ ds', recLookup (recPush d k v) t = some ds' ∧ ∀ p ∈ ds, p ∈ ds' := by
  rw [recLookup_recPush]
  by_cases hk : k = t
  · subst hk
    rw [if_pos rfl, h]
    exact ⟨ds ++ [v], rfl, fun p hp => List.mem_append_left _ hp⟩
  · rw [if_neg hk]
    exact ⟨ds, h, fun p hp => hp⟩

/-- Any element of a list found after a push is the pushed value or was
already present for that key. -/
theorem recLookup_recPush_sub (d : List (String × List String)) (k v t : String)
    (ds' : List String) (h : recLookup (recPush d k v) t = some ds') :
    ∀ p ∈ ds', p = v ∨ ∃ ds, recLookup d t = some ds ∧ p ∈ ds := by
  rw [recLookup_recPush] at h
  intro p hp
  by_cases hk : k = t
  · rw [if_pos hk] at h
    have hds : ds' = ((recLookup d k).getD []) ++ [v] := (Option.some.inj h).symm
    subst hds
    rcases List.mem_append.mp hp with h1 | h1
    · cases ho : recLookup d k with
      | none => rw [ho] at h1; exact absurd h1 (List.not_mem_nil p)
      | some ds =>
        rw [ho] at h1
        exact Or.inr ⟨ds, hk ▸ ho, h1⟩
    · exact Or.inl (List.mem_singleton.mp h1)
  · rw [if_neg hk] at h
    exact Or.inr ⟨ds', h, hp⟩

/-- Folding pushes over a target list preserves any existing entry up to
list extension. -/
theorem foldl_recPush_preserve (file : String) :
    ∀ (imps : List String) (d : List (String × List String)) (t : String) (ds : List String),
      recLookup d t = some ds →
      ∃ ds', recLookup (imps.foldl (fun d imp => recPush d imp file) d) t = some ds' ∧
        ∀ p ∈ ds, p ∈ ds' := by
  intro imps
  induction imps with
  | nil => intro d t ds h; exact ⟨ds, h, fun p hp => hp⟩
  | cons imp imps ih =>
    intro d t ds h
    simp only [List.foldl_cons]
    rcases recLookup_recPush_preserve d imp file t ds h with ⟨ds1, h1, hsub1⟩
    rcases ih (recPush d imp file) t ds1 h1 with ⟨ds2, h2, hsub2⟩
    exact ⟨ds2, h2, fun p hp => hsub2 p (hsub1 p hp)⟩

/-- Pushing the same file for every import target of a list: each listed
target ends up holding the file. -/
theorem foldl_recPush_mem (file : String) :
    ∀ (imps : List String) (d : List (String × List String)) (t : String), t ∈ imps →
      ∃ ds, recLookup (imps.foldl (fun d imp => recPush d imp file) d) t = some ds ∧
        file ∈ ds := by
  intro imps
  induction imps with
  | nil => intro d t h; exact absurd h (List.not_mem_nil t)
  | cons imp imps ih =>
    intro d t h
    simp only [List.foldl_cons]
    by_cases ht : t ∈ imps
    · exact ih _ t ht
    · have hti : imp = t := by
        rcases List.mem_cons.mp h with h1 | h1
        · exact h1.symm
        · exact absurd h1 ht
      have hbase : recLookup (recPush d imp file) t =
          some (((recLookup d imp).getD []) ++ [file]) := by
        rw [recLookup_recPush, if_pos hti]
      rcases foldl_recPush_preserve file imps (recPush d imp file) t _ hbase with
        ⟨ds2, h2, hsub2⟩
      exact ⟨ds2, h2, hsub2 file (List.mem_append_right _ (List.mem_singleton_self file))⟩

/-- Every element reachable after folding pushes is the pushed file or
was present before the fold. -/
theorem foldl_recPush_sub (file : String) :
    ∀ (imps : List String) (d : List (String × List String)) (t : String) (ds' : List String),
      recLookup (imps.foldl (fun d imp => recPush d imp file) d) t = some ds' →
      ∀ p ∈ ds', p = file ∨ ∃ ds, recLookup d t = some ds ∧ p ∈ ds := by
  intro imps
  induction imps with
  | nil => intro d t ds' h p hp; exact Or.inr ⟨ds', h, hp⟩
  | cons imp imps ih =>
    intro d t ds' h p hp
    simp only [List.foldl_cons] at h
    rcases ih (recPush d imp file) t ds' h p hp with h1 | ⟨ds1, h1, hp1⟩
    · exact Or.inl h1
    · exact recLookup_recPush_sub d imp file t ds1 h1 p hp1

/-! ### The index consistency invariant -/

/-- The empty index satisfies the loop invariant. -/
theorem indexInv_empty (g : String → Option String) :
    indexInv g { files := [], dependencies := [], imports := [] } := by
  refine ⟨?_, ?_, ?_, ?_⟩
  · intro f hf; exact absurd hf (List.not_mem_nil f)
  · intro f hf; exact absurd hf (List.not_mem_nil f)
  · intro f hf; exact absurd hf (List.not_mem_nil f)
  · intro t ds hds; exact absurd hds (by simp [recLookup])

/-- One pass of the fetch-and-scan loop preserves the invariant. -/
theorem indexStep_inv (g : String → Option String) (st : IndexedCodebase) (file : String)
    (h : indexInv g st) : indexInv g (indexStep g st file) := by
  obtain ⟨h0, h1, h2, h3⟩ := h
  unfold indexStep
  cases hg : g file with
  | none => exact ⟨h0, h1, h2, h3⟩
  | some content =>
    dsimp only
    refine ⟨?_, ?_, ?_, ?_⟩
    · intro f hf
      rcases List.mem_append.mp hf with hf | hf
      · exact h0 f hf
      · rw [List.mem_singleton.mp hf]
        exact hg
    · intro f hf
      rcases List.mem_append.mp hf with hf | hf
      · by_cases hp : file = f.path
        · have hc : some content = some f.content := by
            rw [← hg, hp]
            exact h0 f hf
          rw [← hp, recLookup_recSet_self, Option.some.inj hc]
        · rw [recLookup_recSet_ne _ _ _ _ hp]
          exact h1 f hf
      · rw [List.mem_singleton.mp hf]
        exact recLookup_recSet_self _ _ _
    · intro f hf t ht
      rcases List.mem_append.mp hf with hf | hf
      · rcases h2 f hf t ht with ⟨ds, hds, hmem⟩
        rcases foldl_recPush_preserve file (extractImports content) st.dependencies t ds hds
          with ⟨ds2, hds2, hsub⟩
        exact ⟨ds2, hds2, hsub _ hmem⟩
      · have hfe : f = ⟨file, content, extractDeclarations content⟩ := List.mem_singleton.mp hf
        subst hfe
        exact foldl_recPush_mem file (extractImports content) st.dependencies t ht
    · intro t ds hds p hp
      rcases foldl_recPush_sub file (extractImports content) st.dependencies t ds hds p hp
        with hpf | ⟨ds0, hds0, hp0⟩
      · rw [List.map_append]
        exact List.mem_append_right _ (by rw [hpf]; simp)
      · rw [List.map_append]
        exact List.mem_append_left _ (h3 t ds0 hds0 p hp0)

/-- The whole loop establishes the invariant from the empty index. -/
theorem buildIndex_inv (g : String → Option String) (tsFiles : List String) :
    indexInv g (buildIndex tsFiles g) := by
  unfold buildIndex
  have aux : ∀ (l : List String) (st : IndexedCodebase), indexInv g st →
      indexInv g (l.foldl (indexStep g) st) := by
    intro l
    induction l with
    | nil => intro st h; exact h
    | cons x xs ih =>
      intro st h
      exact ih _ (indexStep_inv g st x h)
  exact aux tsFiles _ (indexInv_empty g)

/-- C10: every index returned by `indexCodebase` keeps its maps
consistent: each indexed file's recorded import targets all map, in the
dependency graph, to a list containing that file's path, and every path
recorded anywhere in the dependency graph is the path of an indexed
file. -/
theorem c10_index_consistency (traversed prioritizedFiles : List String)
    (getContent : String → Option String) (idx : IndexedCodebase)
    (h : indexCodebase traversed prioritizedFiles getContent = Except.ok idx) :
    indexConsistent idx := by
  unfold indexCodebase at h
  cases hg : getTypeScriptFiles traversed prioritizedFiles [] with
  | error e =>
    rw [hg] at h
    exact absurd h (by simp)
  | ok tsFiles =>
    rw [hg] at h
    have hidx : idx = buildIndex tsFiles getContent := by
      have := Except.ok.inj h
      exact this.symm
    subst hidx
    obtain ⟨h0, h1, h2, h3⟩ := buildIndex_inv getContent tsFiles
    refine ⟨?_, h3⟩
    intro f hf ts hts t ht
    have he := h1 f hf
    rw [hts] at he
    have hts2 : ts = extractImports f.content := Option.some.inj he
    exact h2 f hf t (hts2 ▸ ht)

/-- Witness for C10 on a two-file repository with one import edge. -/
theorem c10_index_consistency_witness :
    indexConsistent ((indexCodebase ["src/a.ts", "src/b.ts"] [] exGetContent).toOption.getD
      { files := [], dependencies := [], imports := [] }) :=
  c10_index_consistency ["src/a.ts", "src/b.ts"] [] exGetContent _ rfl

/-! ### Claim theorems for the retrying fetcher -/

/-- A successful attempt returns immediately with the waits so far. -/
theorem withRetryGo_ok {E A : Type} (maxDelay : Nat) (op : Nat → Except E A)
    (r attempt delay : Nat) (waits : List Nat) (v : A) (h : op attempt = Except.ok v) :
    withRetryGo maxDelay op r attempt delay waits = (Except.ok v, waits) := by
  rw [withRetryGo, h]

/-- A failed attempt with retries left waits the current delay, doubles
it under the cap, and moves to the next attempt. -/
theorem withRetryGo_err_step {E A : Type} (maxDelay : Nat) (op : Nat → Except E A)
    (r attempt delay : Nat) (waits : List Nat) (e : E) (h : op attempt = Except.error e) :
    withRetryGo maxDelay op (r + 1) attempt delay waits =
      withRetryGo maxDelay op r (attempt + 1) (min (delay * 2) maxDelay) (waits ++ [delay]) := by
  rw [withRetryGo, h]

/-- A failed attempt with no retries left re-raises that error. -/
theorem withRetryGo_err_last {E A : Type} (maxDelay : Nat) (op : Nat → Except E A)
    (attempt delay : Nat) (waits : List Nat) (e : E) (h : op attempt = Except.error e) :
    withRetryGo maxDelay op 0 attempt delay waits = (Except.error e, waits) := by
  rw [withRetryGo, h]

/-- C5 (modelled from the spec, see `withRetryGo`): on an operation that
fails twice then succeeds, `withRetry` returns the success value after
exactly two backoff waits, the first the initial delay and the second its
doubling capped at the maximal delay, so the second wait is at least the
first and at most the cap; and on an operation that always fails it runs
exactly the maximal number of attempts, performing the same two waits,
and re-raises the error of the last attempt. -/
theorem c5_withRetry_backoff :
    (∀ {E A : Type} (op : Nat → Except E A) (e0 e1 : E) (v : A),
        op 0 = Except.error e0 → op 1 = Except.error e1 → op 2 = Except.ok v →
        withRetry op =
            (Except.ok v, [INITIAL_RETRY_DELAY, min (INITIAL_RETRY_DELAY * 2) MAX_RETRY_DELAY]) ∧
          INITIAL_RETRY_DELAY ≤ min (INITIAL_RETRY_DELAY * 2) MAX_RETRY_DELAY ∧
          min (INITIAL_RETRY_DELAY * 2) MAX_RETRY_DELAY ≤ MAX_RETRY_DELAY) ∧
      (∀ {E A : Type} (op : Nat → Except E A) (f : Nat → E),
        (∀ n, op n = Except.error (f n)) →
        withRetry op =
          (Except.error (f (MAX_RETRIES - 1)),
            [INITIAL_RETRY_DELAY, min (INITIAL_RETRY_DELAY * 2) MAX_RETRY_DELAY])) := by
  constructor
  · intro E A op e0 e1 v h0 h1 h2
    refine ⟨?_, by decide, by decide⟩
    show withRetryGo 10000 op (1 + 1) 0 1000 [] = _
    rw [withRetryGo_err_step 10000 op 1 0 1000 [] e0 h0,
      withRetryGo_err_step 10000 op 0 1 (min (1000 * 2) 10000) ([] ++ [1000]) e1 h1,
      withRetryGo_ok 10000 op 0 2 _ _ v h2]
    simp [INITIAL_RETRY_DELAY, MAX_RETRY_DELAY]
  · intro E A op f hf
    show withRetryGo 10000 op (1 + 1) 0 1000 [] = _
    rw [withRetryGo_err_step 10000 op 1 0 1000 [] (f 0) (hf 0),
      withRetryGo_err_step 10000 op 0 1 (min (1000 * 2) 10000) ([] ++ [1000]) (f 1) (hf 1),
      withRetryGo_err_last 10000 op 2 _ _ (f 2) (hf 2)]
    simp [INITIAL_RETRY_DELAY, MAX_RETRY_DELAY, MAX_RETRIES]

/-- Witness for C5: a concrete operation failing on the first two
attempts and succeeding on the third. -/
theorem c5_withRetry_backoff_witness :
    withRetry (fun n => if n < 2 then (Except.error "e" : Except String Nat) else Except.ok 7) =
        (Except.ok 7, [INITIAL_RETRY_DELAY, min (INITIAL_RETRY_DELAY * 2) MAX_RETRY_DELAY]) ∧
      INITIAL_RETRY_DELAY ≤ min (INITIAL_RETRY_DELAY * 2) MAX_RETRY_DELAY ∧
      min (INITIAL_RETRY_DELAY * 2) MAX_RETRY_DELAY ≤ MAX_RETRY_DELAY :=
  c5_withRetry_backoff.1 _ "e" "e" 7 rfl rfl rfl

end Flash
